import Mathlib

/-!
Shallow embedding of `src/lib.rs` (crate `wvec`): a Python extension type
`Vector2` over `f64` coordinates, plus its iterator helper `VecIter`.

Modelling conventions:
* `f64` arithmetic is idealised as exact real arithmetic.  Where the
  finite / NaN / infinity distinction matters (the construction gate and
  `from_polar`), `f64` is modelled by the inductive `F64`, whose finite
  values carry an exact real payload and whose arithmetic follows the
  IEEE-754 special-value rules (rounding and overflow of finite values are
  idealised away, which is irrelevant to the claims below).
* For the purely numeric operations the validated vector is modelled by
  `Vec2`, a pair of reals, since validated coordinates are finite.
* Python's `PyResult` is `Except PyErr`; returning `NotImplemented` versus
  a `bool` from `__richcmp__` is the inductive `PyObj`; the operand of a
  comparison is the inductive `PyOperand` (another `Vector2`, a sequence
  extractable as `Vec<f64>`, or anything else).
* The mutable iterator (`VecIter::__next__` mutates `pos`) is modelled by
  explicit state passing: `next` returns the yielded element together with
  the successor state.
-/

namespace Wvec

/-- Idealised IEEE-754 double: either a finite value with an exact real
payload, or one of the special values NaN, +inf, -inf. -/
inductive F64 where
  | finite (v : ℝ)
  | nan
  | inf
  | neginf

/-- Model of Rust `f64::is_finite`. -/
def F64.isFinite : F64 → Bool
  | .finite _ => true
  | _ => false

/-- Model of `f64` addition on special values; finite addition is exact
(overflow idealised away). -/
noncomputable def F64.add : F64 → F64 → F64
  | .nan, _ => .nan
  | _, .nan => .nan
  | .finite a, .finite b => .finite (a + b)
  | .finite _, .inf => .inf
  | .inf, .finite _ => .inf
  | .finite _, .neginf => .neginf
  | .neginf, .finite _ => .neginf
  | .inf, .inf => .inf
  | .neginf, .neginf => .neginf
  | .inf, .neginf => .nan
  | .neginf, .inf => .nan

open Classical in
/-- Model of `f64` multiplication on special values; finite multiplication
is exact (overflow idealised away). -/
noncomputable def F64.mul : F64 → F64 → F64
  | .nan, _ => .nan
  | _, .nan => .nan
  | .finite a, .finite b => .finite (a * b)
  | .finite a, .inf => if 0 < a then .inf else if a < 0 then .neginf else .nan
  | .finite a, .neginf => if 0 < a then .neginf else if a < 0 then .inf else .nan
  | .inf, .finite b => if 0 < b then .inf else if b < 0 then .neginf else .nan
  | .neginf, .finite b => if 0 < b then .neginf else if b < 0 then .inf else .nan
  | .inf, .inf => .inf
  | .inf, .neginf => .neginf
  | .neginf, .inf => .neginf
  | .neginf, .neginf => .inf

/-- Model of `f64::cos`: finite on finite input, NaN on NaN/±inf. -/
noncomputable def F64.cos : F64 → F64
  | .finite v => .finite (Real.cos v)
  | _ => .nan

/-- Model of `f64::sin`: finite on finite input, NaN on NaN/±inf. -/
noncomputable def F64.sin : F64 → F64
  | .finite v => .finite (Real.sin v)
  | _ => .nan

/-- The `Vector2` struct at the `F64` level (used for the operations whose
behaviour on non-finite values is claimed: `new`, `from_polar`, `__add__`,
`__mul__`). -/
structure Vec2F where
  x : F64
  y : F64

/-- Python-level errors surfaced through `PyResult`. -/
inductive PyErr where
  | valueError (msg : String)

/-- Model of `Vector2::new` (src/lib.rs lines 24-33): validate that both
coordinates are finite, else raise `ValueError`. -/
def Vector2.new (x y : F64) : Except PyErr Vec2F :=
  if x.isFinite && y.isFinite then
    Except.ok ⟨x, y⟩
  else
    Except.error (PyErr.valueError "x/y values may not be NaN/inf")

/-- Model of `Vector2::from_polar` (src/lib.rs lines 38-42): compute
`x = r * theta.cos()`, `y = r * theta.sin()` and return `Ok` without any
finiteness validation. -/
noncomputable def Vector2.from_polar (r theta : F64) : Except PyErr Vec2F :=
  Except.ok ⟨F64.mul r (F64.cos theta), F64.mul r (F64.sin theta)⟩

/-- Model of `__add__` (src/lib.rs lines 142-147): component-wise sum,
infallible. -/
noncomputable def Vector2.addF (lhs rhs : Vec2F) : Vec2F :=
  ⟨F64.add lhs.x rhs.x, F64.add lhs.y rhs.y⟩

/-- Model of `__mul__` (src/lib.rs lines 149-154): component-wise scaling
by an `f64` scalar, infallible, with no finiteness check on the scalar. -/
noncomputable def Vector2.smulF (lhs : Vec2F) (rhs : F64) : Vec2F :=
  ⟨F64.mul lhs.x rhs, F64.mul lhs.y rhs⟩

/-- The validated `Vector2` value: both coordinates finite, so modelled
directly by exact reals. -/
structure Vec2 where
  x : ℝ
  y : ℝ

/-- Model of `Vector2::dot` (src/lib.rs lines 91-93). -/
def Vec2.dot (v other : Vec2) : ℝ :=
  v.x * other.x + v.y * other.y

/-- Model of `Vector2::is_zero` (src/lib.rs lines 48-50): exact comparison
of both coordinates with `0.0`. -/
def Vec2.is_zero (v : Vec2) : Prop :=
  v.x = 0 ∧ v.y = 0

/-- Model of `Vector2::length_squared` (src/lib.rs lines 56-58). -/
def Vec2.length_squared (v : Vec2) : ℝ :=
  v.dot v

/-- Model of `Vector2::length` (src/lib.rs lines 61-63). -/
noncomputable def Vec2.length (v : Vec2) : ℝ :=
  Real.sqrt v.length_squared

/-- Model of `f64::atan2(self = y, other = x)` on finite inputs: the
standard two-argument arctangent with range `(-pi, pi]` (signed zeros,
absent over the reals, are the only IEEE nuance dropped). -/
noncomputable def atan2 (y x : ℝ) : ℝ :=
  if 0 < x then Real.arctan (y / x)
  else if x < 0 then
    (if 0 ≤ y then Real.arctan (y / x) + Real.pi else Real.arctan (y / x) - Real.pi)
  else
    (if 0 < y then Real.pi / 2 else if y < 0 then -(Real.pi / 2) else 0)

/-- Model of `Vector2::angle` (src/lib.rs lines 66-68): `self.y.atan2(self.x)`. -/
noncomputable def Vec2.angle (v : Vec2) : ℝ :=
  atan2 v.y v.x

/-- Model of `Vector2::to_polar` (src/lib.rs lines 71-73). -/
noncomputable def Vec2.to_polar (v : Vec2) : ℝ × ℝ :=
  (v.length, v.angle)

open Classical in
/-- Model of `Vector2::normalized` (src/lib.rs lines 79-89): the zero
vector maps to `(1, 0)`, any other vector is divided by its length. -/
noncomputable def Vec2.normalized (v : Vec2) : Vec2 :=
  if v.is_zero then ⟨1, 0⟩
  else ⟨v.x / v.length, v.y / v.length⟩

/-- Model of `Vector2::from_polar` restricted to finite (validated) inputs,
at the real-valued layer: `(r * cos theta, r * sin theta)`. -/
noncomputable def Vector2.from_polarR (r theta : ℝ) : Vec2 :=
  ⟨r * Real.cos theta, r * Real.sin theta⟩

/-- The `CompareOp` argument of `__richcmp__`. -/
inductive CompareOp where
  | lt
  | le
  | eq
  | ne
  | gt
  | ge

/-- The `other : &PyAny` operand of `__richcmp__`, classified by which of
the two extractions in the source succeeds: another `Vector2`, a Python
value extractable as `Vec<f64>`, or anything else. -/
inductive PyOperand where
  | vec (v : Vec2)
  | floatSeq (vals : List ℝ)
  | other

/-- The `PyObject` returned by `__richcmp__`: a Python bool or the
`NotImplemented` singleton. -/
inductive PyObj where
  | pyBool (b : Bool)
  | notImplemented

open Classical in
/-- The body of `__richcmp__` after `cmp` has been selected (src/lib.rs
lines 120-135): try extracting a `Vector2`, then a `Vec<f64>`; each hit
returns `eq ^ cmp`, anything else returns `NotImplemented`.  The source
indexes `vals[0]`/`vals[1]` only after `vals.len() == 2` holds, which the
`List.get?` form reproduces without partiality. -/
noncomputable def Vector2.cmpBody (self : Vec2) (o : PyOperand) (cmp : Bool) : PyObj :=
  match o with
  | .vec v =>
      PyObj.pyBool (Bool.xor (decide (v.x = self.x ∧ v.y = self.y)) cmp)
  | .floatSeq vals =>
      PyObj.pyBool (Bool.xor
        (decide (vals.length = 2 ∧ vals.get? 0 = some self.x ∧ vals.get? 1 = some self.y))
        cmp)
  | .other => PyObj.notImplemented

/-- Model of `__richcmp__` (src/lib.rs lines 107-136): `Eq` selects
`cmp = false`, `Ne` selects `cmp = true`, every other operator returns
`NotImplemented` before any comparison is computed. -/
noncomputable def Vector2.richcmp (self : Vec2) (o : PyOperand) (op : CompareOp) : PyObj :=
  match op with
  | .eq => Vector2.cmpBody self o false
  | .ne => Vector2.cmpBody self o true
  | _ => PyObj.notImplemented

/-- Model of the `VecIter` struct (src/lib.rs lines 166-170): an owned
copy of the vector plus a position counter (`usize`, modelled by `ℕ`). -/
structure VecIter where
  v : Vec2
  pos : ℕ

/-- Model of `VecIter::__next__` (src/lib.rs lines 178-186) with the
mutation of `pos` made explicit: the yielded element is chosen from the
current `pos`, and `pos` is incremented unconditionally. -/
def VecIter.next (s : VecIter) : Option ℝ × VecIter :=
  (match s.pos with
   | 0 => some s.v.x
   | 1 => some s.v.y
   | _ => none,
   ⟨s.v, s.pos + 1⟩)

/-- Model of `Vector2`'s `__iter__` (src/lib.rs lines 190-198): every
iteration request builds a fresh `VecIter` holding a copy (`slf.clone()`)
of the vector, at position `0`. -/
def Vec2.iter (v : Vec2) : VecIter :=
  ⟨v, 0⟩

/-- Model of `VecIter`'s own `__iter__` (src/lib.rs line 175): it returns
itself unchanged. -/
def VecIter.iterSelf (s : VecIter) : VecIter :=
  s

/-- State after `n` successive `__next__` calls. -/
def VecIter.stepN (s : VecIter) : ℕ → VecIter
  | 0 => s
  | n + 1 => (VecIter.next (VecIter.stepN s n)).2

/-- The value yielded by the `(n+1)`-st `__next__` call on a cursor. -/
def VecIter.outAt (s : VecIter) (n : ℕ) : Option ℝ :=
  (VecIter.next (VecIter.stepN s n)).1

/-! Helper lemmas shared by several claims. -/

/-- Multiplying with a non-finite left factor never yields a finite value. -/
lemma F64.mul_left_nonfinite (x c : F64) (hx : x.isFinite = false) :
    (F64.mul x c).isFinite = false := by
  cases x <;> cases c <;>
    simp only [F64.isFinite, F64.mul] at hx ⊢ <;>
    first
      | rfl
      | simp at hx
      | (split_ifs <;> rfl)

/-- Multiplying with a non-finite right factor never yields a finite value. -/
lemma F64.mul_right_nonfinite (x c : F64) (hc : c.isFinite = false) :
    (F64.mul x c).isFinite = false := by
  cases x <;> cases c <;>
    simp only [F64.isFinite, F64.mul] at hc ⊢ <;>
    first
      | rfl
      | simp at hc
      | (split_ifs <;> rfl)

/-- Cosine of a non-finite `f64` is NaN. -/
lemma F64.cos_nonfinite (t : F64) (ht : t.isFinite = false) : F64.cos t = F64.nan := by
  cases t <;> simp_all [F64.isFinite, F64.cos]

/-- Sine of a non-finite `f64` is NaN. -/
lemma F64.sin_nonfinite (t : F64) (ht : t.isFinite = false) : F64.sin t = F64.nan := by
  cases t <;> simp_all [F64.isFinite, F64.sin]

/-! Claim theorems. -/

/-- C1: `new(x, y)` returns a `Vector2` with coordinates exactly `x` and
`y` iff both are finite; otherwise it returns a `ValueError` with the
fixed message and no vector is constructed. -/
theorem C1_new_validates_finiteness (x y : F64) :
    (Vector2.new x y = Except.ok ⟨x, y⟩ ↔ (x.isFinite ∧ y.isFinite)) ∧
    ((x.isFinite && y.isFinite) = false →
      Vector2.new x y = Except.error (PyErr.valueError "x/y values may not be NaN/inf")) := by
  cases hxy : x.isFinite && y.isFinite with
  | true =>
      rw [Bool.and_eq_true] at hxy
      refine ⟨?_, by simp⟩
      simp [Vector2.new, hxy]
  | false =>
      refine ⟨?_, fun _ => by simp [Vector2.new, hxy]⟩
      simp only [Vector2.new, hxy, Bool.false_eq_true, if_false]
      constructor
      · intro h
        exact absurd h (by simp)
      · rintro ⟨h1, h2⟩
        rw [h1, h2] at hxy
        exact absurd hxy (by simp)

/-- Witness for C1 at `x = NaN`, `y = 0.0`. -/
theorem C1_witness :
    (F64.nan.isFinite && (F64.finite 0).isFinite) = false ∧
    Vector2.new F64.nan (F64.finite 0) =
      Except.error (PyErr.valueError "x/y values may not be NaN/inf") :=
  ⟨rfl, (C1_new_validates_finiteness F64.nan (F64.finite 0)).2 rfl⟩

/-- C3: `from_polar(r, theta)` always succeeds, returning the vector
`(r * cos theta, r * sin theta)`; when `r` or `theta` is non-finite the
resulting coordinates are non-finite and are returned with no finiteness
validation. -/
theorem C3_from_polar_skips_validation (r theta : F64) :
    Vector2.from_polar r theta =
      Except.ok ⟨F64.mul r (F64.cos theta), F64.mul r (F64.sin theta)⟩ ∧
    ((r.isFinite && theta.isFinite) = false →
      (F64.mul r (F64.cos theta)).isFinite = false ∧
      (F64.mul r (F64.sin theta)).isFinite = false) := by
  refine ⟨rfl, fun h => ?_⟩
  rcases Bool.and_eq_false_iff.mp h with hr | ht
  · exact ⟨F64.mul_left_nonfinite _ _ hr, F64.mul_left_nonfinite _ _ hr⟩
  · rw [F64.cos_nonfinite _ ht, F64.sin_nonfinite _ ht]
    exact ⟨F64.mul_right_nonfinite _ _ rfl, F64.mul_right_nonfinite _ _ rfl⟩

/-- Witness for C3 at `r = NaN`, `theta = 0.0`. -/
theorem C3_witness :
    (F64.nan.isFinite && (F64.finite 0).isFinite) = false ∧
    ((F64.mul F64.nan (F64.cos (F64.finite 0))).isFinite = false ∧
     (F64.mul F64.nan (F64.sin (F64.finite 0))).isFinite = false) :=
  ⟨rfl, (C3_from_polar_skips_validation F64.nan (F64.finite 0)).2 rfl⟩

/-- C5: `__add__` is the infallible component-wise sum and `__mul__` the
infallible component-wise scalar product; finite components add and
multiply exactly, and a non-finite scalar yields a non-finite product
rather than an error. -/
theorem C5_add_smul_componentwise (a b v : Vec2F) (s : F64) (p q : ℝ) :
    Vector2.addF a b = ⟨F64.add a.x b.x, F64.add a.y b.y⟩ ∧
    F64.add (F64.finite p) (F64.finite q) = F64.finite (p + q) ∧
    Vector2.smulF v s = ⟨F64.mul v.x s, F64.mul v.y s⟩ ∧
    F64.mul (F64.finite p) (F64.finite q) = F64.finite (p * q) ∧
    (s.isFinite = false →
      (Vector2.smulF v s).x.isFinite = false ∧
      (Vector2.smulF v s).y.isFinite = false) :=
  ⟨rfl, rfl, rfl, rfl, fun hs =>
    ⟨F64.mul_right_nonfinite _ _ hs, F64.mul_right_nonfinite _ _ hs⟩⟩

/-- Witness for C5: `(1,2) + (3,4)` componentwise and `(1,2) * inf`
yielding non-finite coordinates. -/
theorem C5_witness :
    F64.inf.isFinite = false ∧
    ((Vector2.smulF ⟨F64.finite 1, F64.finite 2⟩ F64.inf).x.isFinite = false ∧
     (Vector2.smulF ⟨F64.finite 1, F64.finite 2⟩ F64.inf).y.isFinite = false) :=
  ⟨rfl,
   (C5_add_smul_componentwise ⟨F64.finite 1, F64.finite 2⟩ ⟨F64.finite 3, F64.finite 4⟩
      ⟨F64.finite 1, F64.finite 2⟩ F64.inf 1 3).2.2.2.2 rfl⟩

/-- The position counter advances by exactly one per `__next__` call. -/
lemma VecIter.stepN_pos (s : VecIter) (n : ℕ) : (s.stepN n).pos = s.pos + n := by
  induction n with
  | zero => rfl
  | succ k ih => simp [VecIter.stepN, VecIter.next, ih, Nat.add_assoc]

/-- Stepping never changes the owned copy of the vector. -/
lemma VecIter.stepN_v (s : VecIter) (n : ℕ) : (s.stepN n).v = s.v := by
  induction n with
  | zero => rfl
  | succ k ih => simp [VecIter.stepN, VecIter.next, ih]

/-- A cursor whose position is at least 2 yields `None`. -/
lemma VecIter.next_none_of_two_le (s : VecIter) (h : 2 ≤ s.pos) :
    (VecIter.next s).1 = none := by
  rcases s with ⟨sv, p⟩
  have hp : 2 ≤ p := h
  obtain ⟨k, rfl⟩ : ∃ k, p = k + 2 := ⟨p - 2, by omega⟩
  rfl

/-- C6: a fresh cursor over `v` starts at position 0 with its own copy of
the coordinates (so iterating is restartable and cursors over the same
vector are independent); its `__next__` calls yield exactly `x`, then `y`,
then exhaustion. -/
theorem C6_iteration_yields_x_y (v : Vec2) :
    v.iter = ⟨v, 0⟩ ∧
    v.iter.outAt 0 = some v.x ∧
    v.iter.outAt 1 = some v.y ∧
    v.iter.outAt 2 = none :=
  ⟨rfl, rfl, rfl, rfl⟩

/-- C9 (counterexample): after three `__next__` calls on a fresh cursor
the position counter is 3, outside `{0, 1, 2}`. -/
theorem C9_counterexample :
    ¬(((Vec2.mk 0 1).iter.stepN 3).pos = 0 ∨
      ((Vec2.mk 0 1).iter.stepN 3).pos = 1 ∨
      ((Vec2.mk 0 1).iter.stepN 3).pos = 2) := by
  intro h
  have h3 : ((Vec2.mk 0 1).iter.stepN 3).pos = 3 := rfl
  rw [h3] at h
  rcases h with h | h | h <;> exact absurd h (by decide)

/-- C9 (amended): the position counter starts at 0 and is incremented by
exactly one on every `__next__` call, so after `n` calls it equals `n`; it
therefore stays in `{0, 1, 2}` only through the first two calls, and the
third call takes it to 3. -/
theorem C9_pos_equals_call_count (v : Vec2) (n : ℕ) :
    (v.iter.stepN n).pos = n := by
  rw [VecIter.stepN_pos]
  simp [Vec2.iter]

/-- C10: a cursor with position at least 2 yields `None` from `__next__`,
and on a fresh cursor every call after the second yields `None`. -/
theorem C10_exhausted_stays_exhausted (s : VecIter) (hs : 2 ≤ s.pos)
    (v : Vec2) (n : ℕ) (hn : 2 ≤ n) :
    (VecIter.next s).1 = none ∧ v.iter.outAt n = none := by
  refine ⟨VecIter.next_none_of_two_le s hs, ?_⟩
  apply VecIter.next_none_of_two_le
  rw [VecIter.stepN_pos]
  omega

/-- Witness for C10 at an exhausted cursor and at the third call of a
fresh cursor. -/
theorem C10_witness :
    2 ≤ (VecIter.mk (Vec2.mk 0 1) 2).pos ∧ (2 : ℕ) ≤ 5 ∧
    ((VecIter.next (VecIter.mk (Vec2.mk 0 1) 2)).1 = none ∧
     (Vec2.mk 0 1).iter.outAt 5 = none) :=
  ⟨by decide, by decide,
   C10_exhausted_stays_exhausted (VecIter.mk (Vec2.mk 0 1) 2) (by decide)
     (Vec2.mk 0 1) 5 (by decide)⟩

/-- C7: the four ordering operators return `NotImplemented` for every
operand (no ordering is ever computed), and equality or inequality
against an operand that is neither a `Vector2` nor a float sequence also
returns `NotImplemented`. -/
theorem C7_ordering_not_supported (self : Vec2) (o : PyOperand) :
    Vector2.richcmp self o CompareOp.lt = PyObj.notImplemented ∧
    Vector2.richcmp self o CompareOp.le = PyObj.notImplemented ∧
    Vector2.richcmp self o CompareOp.gt = PyObj.notImplemented ∧
    Vector2.richcmp self o CompareOp.ge = PyObj.notImplemented ∧
    Vector2.richcmp self PyOperand.other CompareOp.eq = PyObj.notImplemented ∧
    Vector2.richcmp self PyOperand.other CompareOp.ne = PyObj.notImplemented :=
  ⟨rfl, rfl, rfl, rfl, rfl, rfl⟩

/-- C4: `==` against a `Vector2` is true iff both coordinates are equal;
`==` against a float sequence is true iff it has length exactly 2 and its
elements equal `x` and `y` in order; `!=` is the boolean negation of `==`
in every supported case. -/
theorem C4_equality_semantics (self v : Vec2) (l : List ℝ) :
    (Vector2.richcmp self (PyOperand.vec v) CompareOp.eq = PyObj.pyBool true ↔
       (v.x = self.x ∧ v.y = self.y)) ∧
    (Vector2.richcmp self (PyOperand.vec v) CompareOp.ne = PyObj.pyBool true ↔
       ¬(v.x = self.x ∧ v.y = self.y)) ∧
    (Vector2.richcmp self (PyOperand.floatSeq l) CompareOp.eq = PyObj.pyBool true ↔
       (l.length = 2 ∧ l.get? 0 = some self.x ∧ l.get? 1 = some self.y)) ∧
    (Vector2.richcmp self (PyOperand.floatSeq l) CompareOp.ne = PyObj.pyBool true ↔
       ¬(l.length = 2 ∧ l.get? 0 = some self.x ∧ l.get? 1 = some self.y)) ∧
    (∀ o b, Vector2.richcmp self o CompareOp.ne = PyObj.pyBool b ↔
       Vector2.richcmp self o CompareOp.eq = PyObj.pyBool (!b)) := by
  refine ⟨?_, ?_, ?_, ?_, ?_⟩
  · simp [Vector2.richcmp, Vector2.cmpBody]
  · simp only [Vector2.richcmp, Vector2.cmpBody, Bool.xor_true, PyObj.pyBool.injEq,
      Bool.not_eq_eq_eq_not, Bool.not_true, decide_eq_false_iff_not]
  · simp [Vector2.richcmp, Vector2.cmpBody]
  · simp only [Vector2.richcmp, Vector2.cmpBody, Bool.xor_true, PyObj.pyBool.injEq,
      Bool.not_eq_eq_eq_not, Bool.not_true, decide_eq_false_iff_not]
  · intro o b
    cases o with
    | vec w =>
        simp only [Vector2.richcmp, Vector2.cmpBody, Bool.xor_false, Bool.xor_true,
          PyObj.pyBool.injEq]
        cases b <;> cases hd : decide (w.x = self.x ∧ w.y = self.y) <;> simp
    | floatSeq vals =>
        simp only [Vector2.richcmp, Vector2.cmpBody, Bool.xor_false, Bool.xor_true,
          PyObj.pyBool.injEq]
        cases b <;>
          cases hd : decide (vals.length = 2 ∧
            vals.get? 0 = some self.x ∧ vals.get? 1 = some self.y) <;> simp
    | other => simp [Vector2.richcmp, Vector2.cmpBody]

/-- A pair of reals that are not both zero has positive squared norm. -/
lemma norm_sq_pos_of_ne (x y : ℝ) (h : ¬(x = 0 ∧ y = 0)) : 0 < x * x + y * y := by
  rw [not_and_or] at h
  rcases h with h | h
  · nlinarith [mul_self_pos.mpr h, mul_self_nonneg y]
  · nlinarith [mul_self_pos.mpr h, mul_self_nonneg x]

/-- For nonzero `x` the square root appearing under `arctan` rewrites to
the vector norm divided by `|x|`. -/
lemma sqrt_one_add_div_sq (y x : ℝ) (hx : x ≠ 0) :
    Real.sqrt (1 + (y / x) ^ 2) = Real.sqrt (x * x + y * y) / |x| := by
  have h1 : 1 + (y / x) ^ 2 = (x * x + y * y) / x ^ 2 := by
    field_simp
    ring
  rw [h1, Real.sqrt_div (by nlinarith [mul_self_nonneg x, mul_self_nonneg y]) (x ^ 2),
    Real.sqrt_sq_eq_abs]

/-- Cosine of the two-argument arctangent. -/
lemma cos_atan2 (y x : ℝ) (h : ¬(x = 0 ∧ y = 0)) :
    Real.cos (atan2 y x) = x / Real.sqrt (x * x + y * y) := by
  rcases lt_trichotomy 0 x with hx | hx | hx
  · rw [atan2, if_pos hx, Real.cos_arctan, sqrt_one_add_div_sq y x hx.ne',
      abs_of_pos hx, one_div_div]
  · rw [atan2, ← hx, if_neg (lt_irrefl 0), if_neg (lt_irrefl 0)]
    have hy : y ≠ 0 := fun hy0 => h ⟨hx.symm, hy0⟩
    rcases hy.lt_or_lt with hylt | hygt
    · rw [if_neg (by linarith), if_pos hylt]
      simp [Real.cos_pi_div_two]
    · rw [if_pos hygt]
      simp [Real.cos_pi_div_two]
  · rw [atan2, if_neg (by linarith), if_pos hx]
    by_cases hy : 0 ≤ y
    · rw [if_pos hy, Real.cos_add, Real.cos_pi, Real.sin_pi, Real.cos_arctan,
        sqrt_one_add_div_sq y x hx.ne, abs_of_neg hx, one_div_div]
      ring
    · rw [if_neg hy, Real.cos_sub, Real.cos_pi, Real.sin_pi, Real.cos_arctan,
        sqrt_one_add_div_sq y x hx.ne, abs_of_neg hx, one_div_div]
      ring

/-- Sine of the two-argument arctangent. -/
lemma sin_atan2 (y x : ℝ) (h : ¬(x = 0 ∧ y = 0)) :
    Real.sin (atan2 y x) = y / Real.sqrt (x * x + y * y) := by
  have hr : 0 < Real.sqrt (x * x + y * y) := Real.sqrt_pos.mpr (norm_sq_pos_of_ne x y h)
  rcases lt_trichotomy 0 x with hx | hx | hx
  · rw [atan2, if_pos hx, Real.sin_arctan, sqrt_one_add_div_sq y x hx.ne', abs_of_pos hx]
    field_simp
  · rw [atan2, ← hx, if_neg (lt_irrefl 0), if_neg (lt_irrefl 0)]
    have hy : y ≠ 0 := fun hy0 => h ⟨hx.symm, hy0⟩
    have hyy : (0:ℝ) * 0 + y * y = y * y := by ring
    rcases hy.lt_or_lt with hylt | hygt
    · rw [if_neg (by linarith), if_pos hylt, Real.sin_neg, Real.sin_pi_div_two, hyy,
        Real.sqrt_mul_self_eq_abs, abs_of_neg hylt]
      field_simp
    · rw [if_pos hygt, Real.sin_pi_div_two, hyy, Real.sqrt_mul_self (le_of_lt hygt)]
      rw [div_self (ne_of_gt hygt)]
  · rw [atan2, if_neg (by linarith), if_pos hx]
    by_cases hy : 0 ≤ y
    · rw [if_pos hy, Real.sin_add, Real.cos_pi, Real.sin_pi, Real.sin_arctan,
        sqrt_one_add_div_sq y x hx.ne, abs_of_neg hx, mul_zero, add_zero,
        div_div_div_comm, div_neg, div_self hx.ne, div_neg, div_one]
      ring
    · rw [if_neg hy, Real.sin_sub, Real.cos_pi, Real.sin_pi, Real.sin_arctan,
        sqrt_one_add_div_sq y x hx.ne, abs_of_neg hx, mul_zero, sub_zero,
        div_div_div_comm, div_neg, div_self hx.ne, div_neg, div_one]
      ring

/-- C2: `normalized()` is total: the zero vector maps to exactly `(1, 0)`,
and any non-zero vector maps to `(x / length, y / length)`, whose length
is exactly 1 in the idealised real model (hence 1.0 up to rounding in
`f64`); no division by zero occurs on either path. -/
theorem C2_normalized_total (v : Vec2) :
    (v.is_zero → v.normalized = ⟨1, 0⟩) ∧
    (¬v.is_zero →
      v.normalized = ⟨v.x / v.length, v.y / v.length⟩ ∧ v.normalized.length = 1) := by
  constructor
  · intro h
    rw [Vec2.normalized, if_pos h]
  · intro h
    have hpos : 0 < v.x * v.x + v.y * v.y := norm_sq_pos_of_ne v.x v.y h
    have heq : v.normalized = ⟨v.x / v.length, v.y / v.length⟩ := by
      rw [Vec2.normalized, if_neg h]
    refine ⟨heq, ?_⟩
    rw [heq]
    simp only [Vec2.length, Vec2.length_squared, Vec2.dot]
    have hdiv :
        v.x / Real.sqrt (v.x * v.x + v.y * v.y) * (v.x / Real.sqrt (v.x * v.x + v.y * v.y)) +
          v.y / Real.sqrt (v.x * v.x + v.y * v.y) * (v.y / Real.sqrt (v.x * v.x + v.y * v.y)) =
        (v.x * v.x + v.y * v.y) /
          (Real.sqrt (v.x * v.x + v.y * v.y) * Real.sqrt (v.x * v.x + v.y * v.y)) := by
      ring
    rw [hdiv, Real.mul_self_sqrt hpos.le, div_self (ne_of_gt hpos), Real.sqrt_one]

/-- Witness for C2 at the zero vector and at `(3, 4)`. -/
theorem C2_witness :
    ((Vec2.mk 0 0).is_zero ∧ (Vec2.mk 0 0).normalized = ⟨1, 0⟩) ∧
    (¬(Vec2.mk (3:ℝ) 4).is_zero ∧ (Vec2.mk (3:ℝ) 4).normalized.length = 1) := by
  have hnz : ¬(Vec2.mk (3:ℝ) 4).is_zero := by
    rw [Vec2.is_zero]
    norm_num
  exact ⟨⟨⟨rfl, rfl⟩, (C2_normalized_total ⟨0, 0⟩).1 ⟨rfl, rfl⟩⟩,
    hnz, ((C2_normalized_total ⟨3, 4⟩).2 hnz).2⟩

/-- C8: for any vector of positive length, feeding `to_polar()` back into
`from_polar` reproduces the coordinates exactly in the idealised real
model (hence up to rounding in `f64`). -/
theorem C8_polar_roundtrip (v : Vec2) (h : 0 < v.length) :
    Vector2.from_polarR v.to_polar.1 v.to_polar.2 = v := by
  rcases v with ⟨x, y⟩
  have hnz : ¬(x = 0 ∧ y = 0) := by
    rintro ⟨hx, hy⟩
    rw [Vec2.length, Vec2.length_squared, Vec2.dot] at h
    simp only [hx, hy] at h
    norm_num at h
  have hr : 0 < Real.sqrt (x * x + y * y) :=
    Real.sqrt_pos.mpr (norm_sq_pos_of_ne x y hnz)
  simp only [Vector2.from_polarR, Vec2.to_polar, Vec2.angle, Vec2.length,
    Vec2.length_squared, Vec2.dot]
  rw [cos_atan2 y x hnz, sin_atan2 y x hnz]
  simp only [Vec2.mk.injEq]
  constructor <;> field_simp

/-- Witness for C8 at the unit vector `(1, 0)`. -/
theorem C8_witness :
    0 < (Vec2.mk (1:ℝ) 0).length ∧
    Vector2.from_polarR (Vec2.mk (1:ℝ) 0).to_polar.1 (Vec2.mk (1:ℝ) 0).to_polar.2 =
      Vec2.mk (1:ℝ) 0 := by
  have hp : 0 < (Vec2.mk (1:ℝ) 0).length := by
    rw [Vec2.length, Vec2.length_squared, Vec2.dot]
    norm_num
  exact ⟨hp, C8_polar_roundtrip _ hp⟩

end Wvec
